import Mathlib

/-!
Shallow embedding of `src/main.py` (a CSV-backed Netflix analytics service).

String values are modelled as Lean `String` (a wrapper around `List Char`);
all character-level operations (case folding, trimming, splitting, substring
search) are defined here explicitly so that every definition is kernel
executable.  Python semantics being ASCII-centric in this code path
(`.lower()`, `.upper()`, `.strip()` on catalog text), the case maps act on
the ASCII range, and trimming removes the ASCII whitespace characters
Python's `str.strip()` removes.
-/

/-- ASCII whitespace recognised by Python's `str.strip()`. -/
def isWsChar (c : Char) : Bool :=
  c == ' ' || c == '\t' || c == '\n' || c == '\r' || c == Char.ofNat 11 || c == Char.ofNat 12

/-- Model of Python `str.strip()`: drop whitespace from both ends. -/
def trimStr (s : String) : String :=
  ⟨((s.data.dropWhile isWsChar).reverse.dropWhile isWsChar).reverse⟩

/-- ASCII lower-casing of one character, as Python `str.lower()` does on ASCII. -/
def lowerChar (c : Char) : Char :=
  if 'A' ≤ c ∧ c ≤ 'Z' then Char.ofNat (c.toNat + 32) else c

/-- ASCII upper-casing of one character, as Python `str.upper()` does on ASCII. -/
def upperChar (c : Char) : Char :=
  if 'a' ≤ c ∧ c ≤ 'z' then Char.ofNat (c.toNat - 32) else c

/-- Model of Python `str.lower()`. -/
def lowerStr (s : String) : String := ⟨s.data.map lowerChar⟩

/-- Model of Python `str.upper()`. -/
def upperStr (s : String) : String := ⟨s.data.map upperChar⟩

/-- Does the second list start with the first one? -/
def startsWithL : List Char → List Char → Bool
  | [], _ => true
  | _ :: _, [] => false
  | a :: as, b :: bs => a == b && startsWithL as bs

/-- Model of Python's `needle in hay` substring test on strings. -/
def subOf (needle : List Char) : List Char → Bool
  | [] => needle.isEmpty
  | c :: t => startsWithL needle (c :: t) || subOf needle t

/-- `strHasSub hay needle` : Python `needle in hay`. -/
def strHasSub (hay needle : String) : Bool := subOf needle.data hay.data

/-- Split a character list on a separator character, keeping empty pieces,
as Python `str.split(sep)` does. -/
def splitOnChar (sep : Char) : List Char → List Char → List (List Char)
  | [], cur => [cur.reverse]
  | c :: rest, cur =>
      if c == sep then cur.reverse :: splitOnChar sep rest []
      else splitOnChar sep rest (c :: cur)

/-- Model of `_split_list` (src/main.py lines 42-45): empty input gives `[]`;
otherwise split on commas, strip each piece, drop empty pieces, keep order. -/
def splitListF (val : String) : List String :=
  if val = "" then []
  else ((splitOnChar ',' val.data []).map (fun l => trimStr ⟨l⟩)).filter (fun p => p ≠ "")

/-- Value of a nonempty all-digit character list, else `none`. -/
def digitsVal : List Char → Option Nat
  | [] => none
  | l =>
    if l.all Char.isDigit then
      some (l.foldl (fun acc c => acc * 10 + (c.toNat - '0'.toNat)) 0)
    else none

/-- Model of Python `int(s)` on a string: surrounding whitespace is ignored,
an optional single sign precedes a nonempty digit run.  (CPython also allows
underscore digit separators; those never occur in this dataset's year column
and are not modelled.) -/
def pyInt? (s : String) : Option Int :=
  match (trimStr s).data with
  | '-' :: rest => (digitsVal rest).map (fun n => -(n : Int))
  | '+' :: rest => (digitsVal rest).map (fun n => (n : Int))
  | l => (digitsVal l).map (fun n => (n : Int))

/-- Model of `release_year` coercion (src/main.py lines 83-86):
`int(r.get("release_year") or 0) or None`.  A missing or empty raw value
parses as `0`; a raised parse error yields `None`; finally Python's
`x or None` maps the value `0` to `None` and keeps any nonzero value
(including negative ones). -/
def pyYear (o : Option String) : Option Int :=
  match o with
  | none => none
  | some s =>
    if s = "" then none
    else
      match pyInt? s with
      | none => none
      | some v => if v = 0 then none else some v

/-- A parsed calendar date, the model of the `datetime` values `_parse_date`
produces (only the date components are ever used). -/
structure PDate where
  y : Nat
  m : Nat
  d : Nat
deriving Repr, DecidableEq

/-- English month names, as matched by `strptime`'s `%B`. -/
def monthNames : List (String × Nat) :=
  [("January", 1), ("February", 2), ("March", 3), ("April", 4), ("May", 5),
   ("June", 6), ("July", 7), ("August", 8), ("September", 9), ("October", 10),
   ("November", 11), ("December", 12)]

def isLeap (y : Nat) : Bool := (y % 4 == 0 && y % 100 != 0) || y % 400 == 0

def daysInMonth (y m : Nat) : Nat :=
  if m = 2 then (if isLeap y then 29 else 28)
  else if m = 4 ∨ m = 6 ∨ m = 9 ∨ m = 11 then 30
  else 31

/-- Calendar validation performed by `datetime` construction inside `strptime`. -/
def mkDate (y m d : Nat) : Option PDate :=
  if 1 ≤ m ∧ m ≤ 12 ∧ 1 ≤ d ∧ d ≤ daysInMonth y m then some ⟨y, m, d⟩ else none

/-- A `%d`/`%m`-style field: one or two digits. -/
def twoDigit? (l : List Char) : Option Nat :=
  if l.length ≤ 2 then digitsVal l else none

/-- A `%Y`-style field: one to four digits. -/
def yearDigit? (l : List Char) : Option Nat :=
  if l.length ≤ 4 then digitsVal l else none

/-- `strptime(val, "%B %d, %Y")`: month name, day, comma, year. -/
def parseDateB (s : String) : Option PDate :=
  match splitOnChar ' ' s.data [] with
  | [mn, dc, ys] =>
    match (monthNames.lookup (⟨mn⟩ : String)), dc.reverse with
    | some m, ',' :: dr =>
      match twoDigit? dr.reverse, yearDigit? ys with
      | some d, some y => mkDate y m d
      | _, _ => none
    | _, _ => none
  | _ => none

/-- `strptime(val, "%Y-%m-%d")`. -/
def parseDateISO (s : String) : Option PDate :=
  match splitOnChar '-' s.data [] with
  | [ys, ms, ds] =>
    match yearDigit? ys, twoDigit? ms, twoDigit? ds with
    | some y, some m, some d => mkDate y m d
    | _, _, _ => none
  | _ => none

/-- `strptime(val, "%m/%d/%Y")`. -/
def parseDateMDY (s : String) : Option PDate :=
  match splitOnChar '/' s.data [] with
  | [ms, ds, ys] =>
    match twoDigit? ms, twoDigit? ds, yearDigit? ys with
    | some m, some d, some y => mkDate y m d
    | _, _, _ => none
  | _ => none

/-- Model of `_parse_date` (src/main.py lines 31-39): empty input is absent;
otherwise the three formats are tried in order and the first that parses
wins; anything else is absent. -/
def parseDate (s : String) : Option PDate :=
  if s = "" then none
  else
    match parseDateB s with
    | some d => some d
    | none =>
      match parseDateISO s with
      | some d => some d
      | none => parseDateMDY s

def pad2 (n : Nat) : String := if n < 10 then "0" ++ toString n else toString n

def pad4 (n : Nat) : String :=
  if n < 10 then "000" ++ toString n
  else if n < 100 then "00" ++ toString n
  else if n < 1000 then "0" ++ toString n
  else toString n

/-- `strftime("%Y-%m-%d")`. -/
def fmtDate (d : PDate) : String := pad4 d.y ++ "-" ++ pad2 d.m ++ "-" ++ pad2 d.d

/-- Lexicographic order on dates, the order `datetime` comparison gives
(time components are always zero here). -/
def dateLeB (a b : PDate) : Bool :=
  decide (a.y < b.y) ||
    (a.y == b.y && (decide (a.m < b.m) || (a.m == b.m && decide (a.d ≤ b.d))))

def minDate? (l : List PDate) : Option PDate :=
  l.foldl
    (fun acc d =>
      match acc with
      | none => some d
      | some m => if dateLeB d m then some d else some m)
    none

def maxDate? (l : List PDate) : Option PDate :=
  l.foldl
    (fun acc d =>
      match acc with
      | none => some d
      | some m => if dateLeB m d then some d else some m)
    none

/-- One raw CSV row as `csv.DictReader` hands it to the loader: each field is
either a string or missing (`r.get(k)` returning `None`). -/
structure RawRow where
  show_id : Option String
  type : Option String
  title : Option String
  director : Option String
  cast : Option String
  country : Option String
  date_added : Option String
  release_year : Option String
  rating : Option String
  duration : Option String
  listed_in : Option String
  description : Option String
deriving Repr, DecidableEq

/-- One normalized record, the dict built at src/main.py lines 92-107. -/
structure Record where
  show_id : String
  type : String
  title : String
  director : String
  cast : String
  country : String
  date_added : Option PDate
  release_year : Option Int
  rating : String
  duration : String
  listed_in : String
  description : String
  countries_list : List String
  genres_list : List String
deriving Repr, DecidableEq

/-- Python `x or ""` on an optional string: `None` and `""` both give `""`. -/
def orEmpty (o : Option String) : String := o.getD ""

/-- Field normalization of one raw row (src/main.py lines 74-107).
`type` and `title` are `.strip()`ped; every other string field is used
as-is after the `or ""` defaulting. -/
def normRow (r : RawRow) : Record :=
  let country := orEmpty r.country
  let listed_in := orEmpty r.listed_in
  { show_id := orEmpty r.show_id
  , type := trimStr (orEmpty r.type)
  , title := trimStr (orEmpty r.title)
  , director := orEmpty r.director
  , cast := orEmpty r.cast
  , country := country
  , date_added := parseDate (orEmpty r.date_added)
  , release_year := pyYear r.release_year
  , rating := orEmpty r.rating
  , duration := orEmpty r.duration
  , listed_in := listed_in
  , description := orEmpty r.description
  , countries_list := splitListF country
  , genres_list := splitListF listed_in }

/-! ## Query engine -/

/-- Result shape of `summary()` (src/main.py lines 119-141). -/
structure SummaryT where
  total_titles : Nat
  movies : Nat
  tv_shows : Nat
  earliest_release_year : Option Int
  latest_release_year : Option Int
  first_added_date : Option String
  last_added_date : Option String
deriving Repr, DecidableEq

/-- Model of `summary()`: total count, counts of records whose upper-cased
`type` equals `"MOVIE"` / `"TV SHOW"`, min/max over present release years,
and min/max over present added dates rendered `YYYY-MM-DD`. -/
def summary (rows : List Record) : SummaryT :=
  let years := rows.filterMap (fun r => r.release_year)
  let dates := rows.filterMap (fun r => r.date_added)
  { total_titles := rows.length
  , movies := rows.countP (fun r => upperStr r.type == "MOVIE")
  , tv_shows := rows.countP (fun r => upperStr r.type == "TV SHOW")
  , earliest_release_year := years.min?
  , latest_release_year := years.max?
  , first_added_date := (minDate? dates).map fmtDate
  , last_added_date := (maxDate? dates).map fmtDate }

/-- One `counter[k] += 1` step on an insertion-ordered counter, the model of
a Python `Counter` (an insertion-ordered dict of counts): an existing key
keeps its position, a new key is appended. -/
def bump : List (String × Nat) → String → List (String × Nat)
  | [], k => [(k, 1)]
  | (k', c) :: rest, k =>
      if k' = k then (k', c + 1) :: rest else (k', c) :: bump rest k

/-- Counting every key occurrence in order, as the nested loops of
`by_country`/`by_genre` do. -/
def countAll (keys : List String) : List (String × Nat) := keys.foldl bump []

/-- Descending-count comparison used by `Counter.most_common`. -/
def countGe (a b : String × Nat) : Bool := decide (b.2 ≤ a.2)

/-- Model of `Counter.most_common(n)`: a stable sort by descending count
(`heapq.nlargest(n, items, key=count)` is documented as
`sorted(items, key=count, reverse=True)[:n]`, a stable descending sort),
then the first `n` entries. -/
def most_common (cnt : List (String × Nat)) (n : Nat) : List (String × Nat) :=
  (cnt.mergeSort countGe).take n

/-- Model of `by_country` (src/main.py lines 144-152), as (key, count) pairs. -/
def by_country (rows : List Record) (top : Nat) : List (String × Nat) :=
  most_common (countAll (rows.flatMap (fun r => r.countries_list))) top

/-- Model of `by_genre` (src/main.py lines 155-163), as (key, count) pairs. -/
def by_genre (rows : List Record) (top : Nat) : List (String × Nat) :=
  most_common (countAll (rows.flatMap (fun r => r.genres_list))) top

/-- First-occurrence deduplication: the distinct keys of a Python dict built
by incrementing, in insertion order. -/
def dedupF : List Int → List Int
  | [] => []
  | y :: ys => y :: (dedupF ys).filter (fun z => z ≠ y)

/-- The inclusive range test of `by_year` (src/main.py lines 173-176):
a bound is enforced only when given. -/
def inB (s e : Option Int) (y : Int) : Bool :=
  (match s with | none => true | some a => decide (a ≤ y)) &&
  (match e with | none => true | some b => decide (y ≤ b))

/-- The multiset of years counted by `by_year`: present release years of the
rows, kept when inside the given bounds. -/
def filtYears (rows : List Record) (s e : Option Int) : List Int :=
  rows.filterMap
    (fun r =>
      match r.release_year with
      | none => none
      | some y => if inB s e y then some y else none)

def intLe (a b : Int) : Bool := decide (a ≤ b)

/-- Model of `by_year` (src/main.py lines 166-178): count the in-range
present years into a dict, then list `(y, count)` for the distinct years
sorted ascending (`sorted(counter.keys())`). -/
def by_year (rows : List Record) (s e : Option Int) : List (Int × Nat) :=
  let ys := filtYears rows s e
  ((dedupF ys).mergeSort intLe).map (fun y => (y, ys.count y))

/-- The projection returned per search hit (src/main.py lines 195-206). -/
structure Proj where
  show_id : String
  title : String
  type : String
  country : String
  release_year : Option Int
  rating : String
  duration : String
  listed_in : String
  date_added : Option String
  description : String
deriving Repr, DecidableEq

def projOf (r : Record) : Proj :=
  { show_id := r.show_id
  , title := r.title
  , type := r.type
  , country := r.country
  , release_year := r.release_year
  , rating := r.rating
  , duration := r.duration
  , listed_in := r.listed_in
  , date_added := r.date_added.map fmtDate
  , description := r.description }

/-- The haystack of `search` (src/main.py lines 190-192): the five text
fields joined by `" ".join(...)`, i.e. with a single space between
consecutive fields, then lower-cased. -/
def hayOf (r : Record) : String :=
  lowerStr ⟨List.intercalate [' ']
    [r.title.data, r.director.data, r.cast.data, r.listed_in.data, r.description.data]⟩

/-- The per-record filter of the search loop: a record is kept when it is
not skipped by the type test (`if type and r["type"].strip().upper() !=
type.strip().upper()` — an absent or empty filter is falsy and skips
nothing) nor by the text test (`if ql and ql not in hay`). -/
def keepRec (ql : String) (tf : Option String) (r : Record) : Bool :=
  (match tf with
   | none => true
   | some t =>
     if t = "" then true
     else upperStr (trimStr r.type) == upperStr (trimStr t)) &&
  (if ql = "" then true else strHasSub (hayOf r) ql)

/-- The search loop (src/main.py lines 186-208): scan rows in order,
append the projection of each kept record, and stop as soon as 25 results
have been collected.  `n` is the number of results collected so far. -/
def searchLoop (keep : Record → Bool) : List Record → Nat → List Proj
  | [], _ => []
  | r :: rest, n =>
    if keep r then
      projOf r :: (if 25 ≤ n + 1 then [] else searchLoop keep rest (n + 1))
    else searchLoop keep rest n

/-- Model of `search` (src/main.py lines 181-209): the query is lower-cased
then stripped (`q.lower().strip()`), and the loop runs with an empty
accumulator. -/
def search (rows : List Record) (q : String) (tf : Option String) : List Proj :=
  searchLoop (keepRec (trimStr (lowerStr q)) tf) rows 0

/-! ## Loader (src/main.py lines 48-110)

The CSV-to-raw-rows step (`csv.DictReader`) is taken as a parameter
`parse`: no claim concerns CSV grammar, and the caching and fallback logic
below holds for every parser.  A remote attempt is modelled by its outcome:
`Except.ok text` for a successful response body, `Except.error e` for any
raised exception (timeout, HTTP error status, ...). -/

structure FetchEnv where
  /-- The local CSV file content when `os.path.exists(local_path)`. -/
  localText : Option String
  /-- Outcomes of the remote attempts, in `DATA_URLS` order. -/
  remotes : List (Except String String)

/-- The fallback loop (src/main.py lines 60-68): try each source in order,
remember the last error, stop at the first success.  Returns the fetched
text (if any) and the last error seen. -/
def tryRemotes : List (Except String String) → Option String → Option String × Option String
  | [], last => (none, last)
  | Except.ok t :: _, last => (some t, last)
  | Except.error e :: rest, _ => tryRemotes rest (some e)

/-- Raw-text resolution (src/main.py lines 53-70): the local file wins when
present; otherwise the remote fallback list is tried, and exhaustion raises
an error carrying the last underlying failure (`None` when the list was
empty). -/
def getText (env : FetchEnv) : Except (Option String) String :=
  match env.localText with
  | some t => Except.ok t
  | none =>
    match tryRemotes env.remotes none with
    | (some t, _) => Except.ok t
    | (none, last) => Except.error last

/-- Model of `load_dataset` with its module-level cache `_cache_rows`
passed explicitly: a populated cache is returned immediately (lines 50-51);
otherwise text is resolved and parsed, and only a successful load populates
the cache (line 109 is reached only after the fetch succeeded). -/
def load (parse : String → List Record) (cache : Option (List Record)) (env : FetchEnv) :
    Option (List Record) × Except (Option String) (List Record) :=
  match cache with
  | some rows => (some rows, Except.ok rows)
  | none =>
    match getText env with
    | Except.ok t => (some (parse t), Except.ok (parse t))
    | Except.error e => (none, Except.error e)

/-- The errors recorded by the fallback loop, in order. -/
def errsOf (l : List (Except String String)) : List String :=
  l.filterMap (fun a => match a with | Except.ok _ => none | Except.error e => some e)

/-- Does one remote attempt fail? -/
def remoteFails (a : Except String String) : Bool :=
  match a with | Except.ok _ => false | Except.error _ => true

/-! ## Loader lemmas -/

theorem tryRemotes_fst_eq_none (l : List (Except String String)) :
    ∀ last, (tryRemotes l last).1 = none ↔ l.all remoteFails = true := by
  induction l with
  | nil => intro last; simp [tryRemotes]
  | cons a rest ih =>
    intro last
    cases a with
    | ok t => simp [tryRemotes, remoteFails]
    | error e => simpa [tryRemotes, remoteFails] using ih (some e)

theorem getLast?_cons_or (e : String) (xs : List String) (last : Option String) :
    ((e :: xs).getLast?).or last = (xs.getLast?).or (some e) := by
  cases xs with
  | nil => simp
  | cons y t =>
    rw [List.getLast?_cons_cons]
    cases h : (y :: t).getLast? with
    | none => simp [List.getLast?] at h
    | some z => simp [Option.or]

theorem tryRemotes_all_fail (l : List (Except String String)) :
    ∀ last, l.all remoteFails = true →
      tryRemotes l last = (none, ((errsOf l).getLast?).or last) := by
  induction l with
  | nil => intro last _; simp [tryRemotes, errsOf]
  | cons a rest ih =>
    intro last h
    cases a with
    | ok t => simp [List.all_cons, remoteFails] at h
    | error e =>
      simp only [List.all_cons, Bool.and_eq_true, remoteFails] at h
      show tryRemotes rest (some e) = _
      rw [ih (some e) h.2]
      have : errsOf (Except.error e :: rest) = e :: errsOf rest := by
        simp [errsOf]
      rw [this, getLast?_cons_or]

/-- Claim C7: `load` is idempotent and memoized.  With a populated cache every
call returns the identical cached record sequence and the result does not
depend on the environment at all (no re-fetch, no re-parse); after a first
successful call the cache holds exactly the returned sequence, so every later
call (under any environment) returns it unchanged.  Query operations are pure
functions of the record list and cannot mutate the cache. -/
theorem C7_load_memoized (parse : String → List Record) (env env' : FetchEnv)
    (rows : List Record) :
    load parse (some rows) env = (some rows, Except.ok rows) ∧
    ((load parse none env).2 = Except.ok rows →
      (load parse none env).1 = some rows ∧
      load parse (some rows) env' = (some rows, Except.ok rows)) := by
  refine ⟨rfl, fun h => ⟨?_, rfl⟩⟩
  unfold load at h ⊢
  cases hg : getText env with
  | ok t =>
    rw [hg] at h
    simp only [Except.ok.injEq] at h
    simp [h]
  | error e => rw [hg] at h; exact absurd h (by simp)

theorem C7_load_memoized_witness :
    (load (fun _ => []) none ⟨some "t", []⟩).2 = Except.ok [] ∧
      (load (fun _ => []) none ⟨some "t", []⟩).1 = some [] ∧
      load (fun _ => []) (some []) ⟨none, []⟩ = (some [], Except.ok []) :=
  ⟨rfl, (C7_load_memoized (fun _ => []) ⟨some "t", []⟩ ⟨none, []⟩ []).2 rfl⟩

/-- Claim C8: `load` fails exactly when the local file is absent and every
remote attempt fails; the error then carries the last underlying failure and
the cache stays unpopulated (never a silent empty dataset). -/
theorem C8_load_failure (parse : String → List Record) (env : FetchEnv) :
    ((∃ e, (load parse none env).2 = Except.error e) ↔
      env.localText = none ∧ env.remotes.all remoteFails = true) ∧
    (env.localText = none → env.remotes.all remoteFails = true →
      load parse none env = (none, Except.error ((errsOf env.remotes).getLast?))) := by
  have hfail : env.localText = none → env.remotes.all remoteFails = true →
      load parse none env = (none, Except.error ((errsOf env.remotes).getLast?)) := by
    intro hl ha
    unfold load getText
    rw [hl]
    rw [tryRemotes_all_fail env.remotes none ha, Option.or_none]
  refine ⟨⟨fun ⟨e, he⟩ => ?_, fun ⟨hl, ha⟩ => ⟨_, by rw [hfail hl ha]⟩⟩, hfail⟩
  unfold load getText at he
  cases hl : env.localText with
  | some t => rw [hl] at he; exact absurd he (by simp)
  | none =>
    rw [hl] at he
    refine ⟨rfl, ?_⟩
    rw [← tryRemotes_fst_eq_none env.remotes none]
    cases htr : tryRemotes env.remotes none with
    | mk fst lasterr =>
      cases fst with
      | some t => rw [htr] at he; exact absurd he (by simp)
      | none => rfl

theorem C8_load_failure_witness :
    ((⟨none, [Except.error "boom"]⟩ : FetchEnv).localText = none ∧
        (FetchEnv.remotes ⟨none, [Except.error "boom"]⟩).all remoteFails = true) ∧
      load (fun _ => []) none ⟨none, [Except.error "boom"]⟩ =
        (none, Except.error (some "boom")) :=
  ⟨⟨rfl, rfl⟩, (C8_load_failure (fun _ => []) ⟨none, [Except.error "boom"]⟩).2 rfl rfl⟩

/-! ## Search lemmas -/

theorem searchLoop_eq (keep : Record → Bool) :
    ∀ (l : List Record) (n : Nat), n < 25 →
      searchLoop keep l n = ((l.filter keep).take (25 - n)).map projOf := by
  intro l
  induction l with
  | nil => intro n _; simp [searchLoop]
  | cons r rest ih =>
    intro n hn
    by_cases hk : keep r = true
    · rw [List.filter_cons_of_pos hk]
      have h25 : 25 - n = (25 - (n + 1)) + 1 := by omega
      rw [h25, List.take_succ_cons, List.map_cons]
      show (if keep r then projOf r :: (if 25 ≤ n + 1 then [] else searchLoop keep rest (n + 1))
          else searchLoop keep rest n) = _
      rw [if_pos hk]
      by_cases hstop : 25 ≤ n + 1
      · have : 25 - (n + 1) = 0 := by omega
        rw [if_pos hstop, this, List.take_zero, List.map_nil]
      · rw [if_neg hstop, ih (n + 1) (by omega)]
    · rw [List.filter_cons_of_neg (by simpa using hk)]
      show (if keep r then projOf r :: (if 25 ≤ n + 1 then [] else searchLoop keep rest (n + 1))
          else searchLoop keep rest n) = _
      rw [if_neg (by simpa using hk)]
      exact ih n hn

theorem search_eq (rows : List Record) (q : String) (tf : Option String) :
    search rows q tf =
      ((rows.filter (keepRec (trimStr (lowerStr q)) tf)).take 25).map projOf := by
  unfold search
  rw [searchLoop_eq _ rows 0 (by omega)]

/-! ## Sample records for witnesses and counterexamples -/

/-- A record whose searchable text is split over two fields. -/
def recA : Record :=
  { show_id := "s1", type := "Movie", title := "x a", director := "b y", cast := ""
  , country := "", date_added := none, release_year := some 2020, rating := ""
  , duration := "", listed_in := "", description := ""
  , countries_list := [], genres_list := [] }

/-- A record whose fields concatenate to "zabw" without a separator. -/
def recB : Record :=
  { show_id := "s2", type := "TV Show", title := "za", director := "bw", cast := ""
  , country := "", date_added := none, release_year := none, rating := ""
  , duration := "", listed_in := "", description := ""
  , countries_list := [], genres_list := [] }

/-- A record with one release year and two countries / genres. -/
def recC : Record :=
  { show_id := "s3", type := "Movie", title := "C", director := "", cast := ""
  , country := "India, USA", date_added := none, release_year := some 2020, rating := ""
  , duration := "", listed_in := "Drama, Comedy", description := ""
  , countries_list := ["India", "USA"], genres_list := ["Drama", "Comedy"] }

/-- Claim C9: the text matched by `search` is the five fields joined with a
single space between consecutive fields, not their plain concatenation.
With the query "a b" a record is returned although no individual field
contains the query (the space comes from the join); with the query "ab" a
record whose separator-free concatenation contains "ab" is not returned. -/
theorem C9_space_join :
    (search [recA] "a b" none = [projOf recA] ∧
      strHasSub (lowerStr recA.title) "a b" = false ∧
      strHasSub (lowerStr recA.director) "a b" = false ∧
      strHasSub (lowerStr recA.cast) "a b" = false ∧
      strHasSub (lowerStr recA.listed_in) "a b" = false ∧
      strHasSub (lowerStr recA.description) "a b" = false) ∧
    (search [recB] "ab" none = [] ∧
      strHasSub
        (lowerStr (recB.title ++ recB.director ++ recB.cast ++ recB.listed_in ++
          recB.description)) "ab" = true) := by
  decide

/-- Claim C1 is false as stated: `search` matches the query against the five
fields joined with spaces, so a record can be returned (here for the
processed nonempty query "a b") although the plain concatenation of its
title, director, cast, genres_raw and description, case-folded, does not
contain the query. -/
theorem C1_counterexample :
    trimStr (lowerStr "a b") ≠ "" ∧
    search [recA] "a b" none = [projOf recA] ∧
    strHasSub
      (lowerStr (recA.title ++ recA.director ++ recA.cast ++ recA.listed_in ++
        recA.description))
      (trimStr (lowerStr "a b")) = false := by
  decide

/-- Claim C1 (amended): `search` returns at most 25 results, namely exactly
the projections, in dataset order, of the first at-most-25 records passing
both filters (so iteration stops once 25 matches are collected); when the
type filter is given and nonempty, every returned record's kind equals it
case-insensitively after trimming surrounding whitespace; when the query is
nonempty after case-fold and trim, every returned record's five text fields
joined with single spaces contain the processed query, case-folded, as a
substring. -/
theorem C1_search_amended (rows : List Record) (q : String) (tf : Option String) :
    (search rows q tf).length ≤ 25 ∧
    search rows q tf =
      ((rows.filter (keepRec (trimStr (lowerStr q)) tf)).take 25).map projOf ∧
    ∀ p ∈ search rows q tf, ∃ r ∈ rows, p = projOf r ∧
      (∀ t, tf = some t → t ≠ "" →
        upperStr (trimStr r.type) = upperStr (trimStr t)) ∧
      (trimStr (lowerStr q) ≠ "" →
        strHasSub (hayOf r) (trimStr (lowerStr q)) = true) := by
  refine ⟨?_, search_eq rows q tf, ?_⟩
  · rw [search_eq]
    calc (((rows.filter _).take 25).map projOf).length
        = ((rows.filter _).take 25).length := List.length_map _ _
      _ ≤ 25 := by rw [List.length_take]; omega
  · intro p hp
    rw [search_eq] at hp
    obtain ⟨r, hr, hpr⟩ := List.mem_map.mp hp
    have hrf : r ∈ rows.filter (keepRec (trimStr (lowerStr q)) tf) :=
      List.mem_of_mem_take hr
    have hmem : r ∈ rows := List.mem_of_mem_filter hrf
    have hkeep : keepRec (trimStr (lowerStr q)) tf r = true := List.of_mem_filter hrf
    unfold keepRec at hkeep
    rw [Bool.and_eq_true] at hkeep
    refine ⟨r, hmem, hpr.symm, ?_, ?_⟩
    · intro t ht hne
      have h1 := hkeep.1
      rw [ht] at h1
      have h1' : (if t = "" then true
          else upperStr (trimStr r.type) == upperStr (trimStr t)) = true := h1
      rw [if_neg hne] at h1'
      exact eq_of_beq h1'
    · intro hne
      have h2 := hkeep.2
      rw [if_neg hne] at h2
      exact h2

theorem C1_search_amended_witness :
    (search [recA] "a" none).length ≤ 25 :=
  (C1_search_amended [recA] "a" none).1

/-- Claim C10: with a query that is empty after case-fold and trim and no
type filter, `search` filters nothing: it returns the projections of the
first `min 25 total` records in dataset order. -/
theorem C10_empty_query (rows : List Record) (q : String)
    (hq : trimStr (lowerStr q) = "") :
    search rows q none = (rows.take 25).map projOf := by
  rw [search_eq, hq]
  have hkeep : keepRec "" none = fun _ => true := by
    funext r; simp [keepRec]
  rw [hkeep, List.filter_true]

theorem C10_empty_query_witness :
    trimStr (lowerStr "  ") = "" ∧
      search [recA, recB] "  " none = ([recA, recB].take 25).map projOf :=
  ⟨by decide, C10_empty_query [recA, recB] "  " (by decide)⟩

/-! ## Normalizer lemmas -/

theorem normRow_release_year (r : RawRow) :
    (normRow r).release_year = pyYear r.release_year := rfl

theorem normRow_show_id (r : RawRow) : (normRow r).show_id = orEmpty r.show_id := rfl
theorem normRow_type (r : RawRow) : (normRow r).type = trimStr (orEmpty r.type) := rfl
theorem normRow_title (r : RawRow) : (normRow r).title = trimStr (orEmpty r.title) := rfl
theorem normRow_director (r : RawRow) : (normRow r).director = orEmpty r.director := rfl
theorem normRow_cast (r : RawRow) : (normRow r).cast = orEmpty r.cast := rfl
theorem normRow_country (r : RawRow) : (normRow r).country = orEmpty r.country := rfl
theorem normRow_rating (r : RawRow) : (normRow r).rating = orEmpty r.rating := rfl
theorem normRow_duration (r : RawRow) : (normRow r).duration = orEmpty r.duration := rfl
theorem normRow_listed_in (r : RawRow) : (normRow r).listed_in = orEmpty r.listed_in := rfl
theorem normRow_description (r : RawRow) :
    (normRow r).description = orEmpty r.description := rfl

theorem pyYear_ne_zero (o : Option String) (y : Int) (h : pyYear o = some y) : y ≠ 0 := by
  unfold pyYear at h
  cases o with
  | none => exact absurd h (by simp)
  | some s =>
    have h2 : (if s = "" then none
        else match pyInt? s with
          | none => none
          | some v => if v = 0 then none else some v) = some y := h
    by_cases hs : s = ""
    · rw [if_pos hs] at h2; exact absurd h2 (by simp)
    · rw [if_neg hs] at h2
      cases hp : pyInt? s with
      | none => rw [hp] at h2; exact absurd h2 (by simp)
      | some v =>
        rw [hp] at h2
        have h3 : (if v = 0 then none else some v) = some y := h2
        by_cases hv : v = 0
        · rw [if_pos hv] at h3; exact absurd h3 (by simp)
        · rw [if_neg hv] at h3
          injection h3 with h4
          subst h4
          exact hv

/-! ## by-year lemmas -/

theorem mem_dedupF (l : List Int) (z : Int) : z ∈ dedupF l ↔ z ∈ l := by
  induction l with
  | nil => simp [dedupF]
  | cons y ys ih =>
    simp only [dedupF, List.mem_cons, List.mem_filter]
    constructor
    · rintro (rfl | ⟨hz, _⟩)
      · exact Or.inl rfl
      · exact Or.inr (ih.mp hz)
    · rintro (rfl | hz)
      · exact Or.inl rfl
      · by_cases hzy : z = y
        · exact Or.inl hzy
        · exact Or.inr ⟨ih.mpr hz, by simpa using hzy⟩

theorem nodup_dedupF (l : List Int) : (dedupF l).Nodup := by
  induction l with
  | nil => simp [dedupF]
  | cons y ys ih =>
    simp only [dedupF, List.nodup_cons]
    refine ⟨fun hmem => ?_, List.Nodup.filter _ ih⟩
    have := (List.mem_filter.mp hmem).2
    simp at this

theorem mem_filtYears (rows : List Record) (s e : Option Int) (y : Int) :
    y ∈ filtYears rows s e ↔
      ∃ r ∈ rows, r.release_year = some y ∧ inB s e y = true := by
  unfold filtYears
  rw [List.mem_filterMap]
  constructor
  · rintro ⟨r, hr, hf⟩
    refine ⟨r, hr, ?_⟩
    cases hry : r.release_year with
    | none => rw [hry] at hf; exact absurd hf (by simp)
    | some z =>
      rw [hry] at hf
      have hf' : (if inB s e z then some z else none) = some y := hf
      by_cases hb : inB s e z = true
      · rw [if_pos hb] at hf'
        injection hf' with h
        subst h
        exact ⟨rfl, hb⟩
      · rw [if_neg (by simpa using hb)] at hf'
        exact absurd hf' (by simp)
  · rintro ⟨r, hr, hry, hb⟩
    refine ⟨r, hr, ?_⟩
    rw [hry]
    show (if inB s e y then some y else none) = some y
    rw [if_pos hb]

theorem filtYears_cons (r : Record) (rest : List Record) (s e : Option Int) :
    filtYears (r :: rest) s e =
      (match r.release_year with
       | none => filtYears rest s e
       | some z =>
         if inB s e z then z :: filtYears rest s e else filtYears rest s e) := by
  unfold filtYears
  rw [List.filterMap_cons]
  cases hry : r.release_year with
  | none => simp [hry]
  | some z =>
    by_cases hb : inB s e z = true
    · simp [hry, hb]
    · simp [hry, hb]

theorem count_filtYears (rows : List Record) (s e : Option Int) (y : Int)
    (h : inB s e y = true) :
    (filtYears rows s e).count y =
      rows.countP (fun r => r.release_year == some y) := by
  induction rows with
  | nil => rfl
  | cons r rest ih =>
    rw [filtYears_cons, List.countP_cons]
    cases hry : r.release_year with
    | none => simp [hry, ih]
    | some z =>
      by_cases hzy : z = y
      · subst hzy
        simp [hry, h, List.count_cons, ih]
      · by_cases hb : inB s e z = true
        · simp [hry, hb, List.count_cons, hzy, ih]
        · simp [hry, hb, hzy, ih]

/-! ## Claims C3, C4, C6 -/

/-- A raw row whose raw release year is the string "-5". -/
def rawNeg : RawRow :=
  { show_id := none, type := none, title := none, director := none, cast := none
  , country := none, date_added := none, release_year := some "-5", rating := none
  , duration := none, listed_in := none, description := none }

/-- A raw row whose raw release year is the string "0". -/
def rawZero : RawRow :=
  { show_id := none, type := none, title := none, director := none, cast := none
  , country := none, date_added := none, release_year := some "0", rating := none
  , duration := none, listed_in := none, description := none }

/-- Claim C3 is false as stated: `int("-5") or None` keeps the value `-5`,
so the raw value "-5" yields the present, non-positive release year `-5`. -/
theorem C3_counterexample :
    rawNeg.release_year = some "-5" ∧
    (normRow rawNeg).release_year = some (-5) ∧
    ¬ (0 : Int) < -5 := by decide

/-- Claim C3 (amended): `release_year` is a nonzero integer or absent —
never zero.  An unparseable raw value or a parsed value of exactly zero
yields absent, and zero never appears in a record's `release_year` nor in
any aggregate computed from it (`by_year` keys, summary min/max year).
(The code does admit negative parsed values such as "-5".) -/
theorem C3_release_year_amended (r : RawRow) :
    (∀ y, (normRow r).release_year = some y → y ≠ 0) ∧
    (r.release_year = none → (normRow r).release_year = none) ∧
    (∀ s, r.release_year = some s → pyInt? s = none →
      (normRow r).release_year = none) ∧
    (∀ s, r.release_year = some s → pyInt? s = some 0 →
      (normRow r).release_year = none) ∧
    (∀ (raws : List RawRow) (s e : Option Int) (p : Int × Nat),
      p ∈ by_year (raws.map normRow) s e → p.1 ≠ 0) ∧
    (∀ (raws : List RawRow) (y : Int),
      ((summary (raws.map normRow)).earliest_release_year = some y ∨
        (summary (raws.map normRow)).latest_release_year = some y) → y ≠ 0) := by
  refine ⟨?_, ?_, ?_, ?_, ?_, ?_⟩
  · intro y h
    rw [normRow_release_year] at h
    exact pyYear_ne_zero r.release_year y h
  · intro h
    rw [normRow_release_year, h]
    rfl
  · intro s hs hp
    rw [normRow_release_year, hs]
    show (if s = "" then none
      else match pyInt? s with
        | none => none
        | some v => if v = 0 then none else some v) = (none : Option Int)
    by_cases hse : s = ""
    · rw [if_pos hse]
    · rw [if_neg hse, hp]
  · intro s hs hp
    rw [normRow_release_year, hs]
    show (if s = "" then none
      else match pyInt? s with
        | none => none
        | some v => if v = 0 then none else some v) = (none : Option Int)
    by_cases hse : s = ""
    · rw [if_pos hse]
    · rw [if_neg hse, hp]
      simp
  · intro raws s e p hp
    unfold by_year at hp
    obtain ⟨y, hy, hpy⟩ := List.mem_map.mp hp
    have h0 : y ∈ dedupF (filtYears (raws.map normRow) s e) :=
      ((List.mergeSort_perm _ _).mem_iff).mp hy
    have h1 : y ∈ filtYears (raws.map normRow) s e := (mem_dedupF _ _).mp h0
    obtain ⟨r', hr', hry, _⟩ := (mem_filtYears _ _ _ _).mp h1
    obtain ⟨raw, _, rfl⟩ := List.mem_map.mp hr'
    have hp1 : p.1 = y := by rw [← hpy]
    rw [hp1]
    exact pyYear_ne_zero raw.release_year y (by rw [← normRow_release_year]; exact hry)
  · intro raws y hy
    have hmem : y ∈ (raws.map normRow).filterMap (fun r => r.release_year) := by
      cases hy with
      | inl h => exact List.min?_mem (fun a b => min_choice a b) h
      | inr h => exact List.max?_mem (fun a b => max_choice a b) h
    obtain ⟨r', hr', hry⟩ := List.mem_filterMap.mp hmem
    obtain ⟨raw, _, rfl⟩ := List.mem_map.mp hr'
    exact pyYear_ne_zero raw.release_year y (by rw [← normRow_release_year]; exact hry)

theorem C3_release_year_amended_witness :
    rawZero.release_year = some "0" ∧ pyInt? "0" = some 0 ∧
      (normRow rawZero).release_year = none :=
  ⟨rfl, by decide, (C3_release_year_amended rawZero).2.2.2.1 "0" rfl (by decide)⟩

/-- A raw row with whitespace-padded title and type. -/
def rawPad : RawRow :=
  { show_id := none, type := some " tv show ", title := some " A "
  , director := some " D ", cast := none, country := none, date_added := none
  , release_year := none, rating := none, duration := none, listed_in := none
  , description := none }

/-- Claim C4 is false as stated: the loader applies `.strip()` to `title`
(src/main.py line 78), so a title padded with spaces is trimmed, not used
as-is. -/
theorem C4_counterexample :
    rawPad.title = some " A " ∧ (normRow rawPad).title = "A" ∧
    (" A " : String) ≠ "A" := by decide

/-- Claim C4 (amended): `None`/missing string fields become the empty
string; id, director, cast, country, rating, duration, genres_raw and
description are otherwise used exactly as the source contains them, while
title and kind are additionally stripped of surrounding whitespace. -/
theorem C4_strings_amended (r : RawRow) :
    ((r.show_id = none → (normRow r).show_id = "") ∧
      ∀ s, r.show_id = some s → (normRow r).show_id = s) ∧
    ((r.director = none → (normRow r).director = "") ∧
      ∀ s, r.director = some s → (normRow r).director = s) ∧
    ((r.cast = none → (normRow r).cast = "") ∧
      ∀ s, r.cast = some s → (normRow r).cast = s) ∧
    ((r.country = none → (normRow r).country = "") ∧
      ∀ s, r.country = some s → (normRow r).country = s) ∧
    ((r.rating = none → (normRow r).rating = "") ∧
      ∀ s, r.rating = some s → (normRow r).rating = s) ∧
    ((r.duration = none → (normRow r).duration = "") ∧
      ∀ s, r.duration = some s → (normRow r).duration = s) ∧
    ((r.listed_in = none → (normRow r).listed_in = "") ∧
      ∀ s, r.listed_in = some s → (normRow r).listed_in = s) ∧
    ((r.description = none → (normRow r).description = "") ∧
      ∀ s, r.description = some s → (normRow r).description = s) ∧
    ((r.title = none → (normRow r).title = "") ∧
      ∀ s, r.title = some s → (normRow r).title = trimStr s) ∧
    ((r.type = none → (normRow r).type = "") ∧
      ∀ s, r.type = some s → (normRow r).type = trimStr s) :=
  ⟨⟨fun h => by rw [normRow_show_id, h]; rfl, fun s hs => by rw [normRow_show_id, hs]; rfl⟩,
   ⟨fun h => by rw [normRow_director, h]; rfl, fun s hs => by rw [normRow_director, hs]; rfl⟩,
   ⟨fun h => by rw [normRow_cast, h]; rfl, fun s hs => by rw [normRow_cast, hs]; rfl⟩,
   ⟨fun h => by rw [normRow_country, h]; rfl, fun s hs => by rw [normRow_country, hs]; rfl⟩,
   ⟨fun h => by rw [normRow_rating, h]; rfl, fun s hs => by rw [normRow_rating, hs]; rfl⟩,
   ⟨fun h => by rw [normRow_duration, h]; rfl, fun s hs => by rw [normRow_duration, hs]; rfl⟩,
   ⟨fun h => by rw [normRow_listed_in, h]; rfl, fun s hs => by rw [normRow_listed_in, hs]; rfl⟩,
   ⟨fun h => by rw [normRow_description, h]; rfl, fun s hs => by rw [normRow_description, hs]; rfl⟩,
   ⟨fun h => by rw [normRow_title, h]; rfl, fun s hs => by rw [normRow_title, hs]; rfl⟩,
   ⟨fun h => by rw [normRow_type, h]; rfl, fun s hs => by rw [normRow_type, hs]; rfl⟩⟩

theorem C4_strings_amended_witness :
    rawPad.director = some " D " ∧ (normRow rawPad).director = " D " ∧
      rawPad.title = some " A " ∧ (normRow rawPad).title = trimStr " A " :=
  ⟨rfl, (C4_strings_amended rawPad).2.1.2 " D " rfl, rfl,
    (C4_strings_amended rawPad).2.2.2.2.2.2.2.2.1.2 " A " rfl⟩

theorem countP_two_disjoint_le {α : Type} (l : List α) (p q : α → Bool)
    (h : ∀ x ∈ l, ¬(p x = true ∧ q x = true)) :
    l.countP p + l.countP q ≤ l.length := by
  induction l with
  | nil => simp
  | cons a t ih =>
    have ha := h a (List.mem_cons_self a t)
    have ht : ∀ x ∈ t, ¬(p x = true ∧ q x = true) :=
      fun x hx => h x (List.mem_cons_of_mem a hx)
    have hle := ih ht
    rw [List.countP_cons, List.countP_cons, List.length_cons]
    by_cases hp : p a = true <;> by_cases hq : q a = true
    · exact absurd ⟨hp, hq⟩ ha
    · simp [hp, hq]; omega
    · simp [hp, hq]; omega
    · simp [hp, hq]; omega

/-- Claim C6: `summary` reports the record count as total, counts records
whose kind case-insensitively equals "movie" / "tv show" as movies /
tv shows; a record matching neither label is counted in neither, hence the
two sub-counts sum to at most the total. -/
theorem C6_summary (rows : List Record) :
    (summary rows).total_titles = rows.length ∧
    (summary rows).movies =
      (rows.filter (fun r => upperStr r.type == upperStr "movie")).length ∧
    (summary rows).tv_shows =
      (rows.filter (fun r => upperStr r.type == upperStr "tv show")).length ∧
    (∀ r ∈ rows,
      ¬(upperStr r.type = upperStr "movie" ∧ upperStr r.type = upperStr "tv show")) ∧
    (summary rows).movies + (summary rows).tv_shows ≤ (summary rows).total_titles := by
  have hm : upperStr "movie" = "MOVIE" := by decide
  have ht : upperStr "tv show" = "TV SHOW" := by decide
  have e0 : (summary rows).total_titles = rows.length := rfl
  have e1 : (summary rows).movies =
      rows.countP (fun r => upperStr r.type == "MOVIE") := rfl
  have e2 : (summary rows).tv_shows =
      rows.countP (fun r => upperStr r.type == "TV SHOW") := rfl
  refine ⟨e0, ?_, ?_, ?_, ?_⟩
  · rw [e1, hm, List.countP_eq_length_filter]
  · rw [e2, ht, List.countP_eq_length_filter]
  · rintro r _ ⟨h1, h2⟩
    rw [hm] at h1
    rw [ht] at h2
    rw [h1] at h2
    exact absurd h2 (by decide)
  · rw [e0, e1, e2]
    refine countP_two_disjoint_le rows _ _ (fun r _ hpq => ?_)
    have h1 := eq_of_beq hpq.1
    have h2 := eq_of_beq hpq.2
    rw [h1] at h2
    exact absurd h2 (by decide)

theorem C6_summary_witness :
    ¬(upperStr recA.type = upperStr "movie" ∧
      upperStr recA.type = upperStr "tv show") :=
  (C6_summary [recA]).2.2.2.1 recA (List.mem_singleton.mpr rfl)

/-! ## Claim C5 -/

theorem intLe_trans (a b c : Int) (h1 : intLe a b = true) (h2 : intLe b c = true) :
    intLe a c = true := by
  simp only [intLe, decide_eq_true_eq] at *
  omega

theorem intLe_total (a b : Int) : (intLe a b || intLe b a) = true := by
  simp only [intLe, Bool.or_eq_true, decide_eq_true_eq]
  omega

theorem by_year_keys_sorted (rows : List Record) (s e : Option Int) :
    ((by_year rows s e).map Prod.fst).Pairwise (· < ·) := by
  unfold by_year
  rw [List.map_map]
  have hfst : (Prod.fst ∘ fun y => (y, (filtYears rows s e).count y)) = id := rfl
  rw [hfst, List.map_id]
  have hsorted :
      List.Pairwise (fun a b => intLe a b = true)
        ((dedupF (filtYears rows s e)).mergeSort intLe) :=
    @List.sorted_mergeSort Int intLe intLe_trans intLe_total _
  have hle : List.Sorted (· ≤ ·) ((dedupF (filtYears rows s e)).mergeSort intLe) :=
    hsorted.imp (fun h => by simpa [intLe] using h)
  have hnd : ((dedupF (filtYears rows s e)).mergeSort intLe).Nodup :=
    ((List.mergeSort_perm _ _).symm).nodup (nodup_dedupF _)
  exact List.Sorted.lt_of_le hle hnd

theorem inB_bounds (s e : Option Int) (y : Int) (h : inB s e y = true) :
    (∀ a, s = some a → a ≤ y) ∧ (∀ b, e = some b → y ≤ b) := by
  unfold inB at h
  rw [Bool.and_eq_true] at h
  constructor
  · intro a ha
    have := h.1
    rw [ha] at this
    simpa using this
  · intro b hb
    have := h.2
    rw [hb] at this
    simpa using this

/-- Claim C5: `by_year` lists, strictly ascending by year, exactly the years
of records with a present release year that pass the inclusive bound tests,
each with its positive count of matching records; years with no matching
record never appear. -/
theorem C5_by_year (rows : List Record) (s e : Option Int) :
    ((by_year rows s e).map Prod.fst).Pairwise (· < ·) ∧
    (∀ p ∈ by_year rows s e,
      0 < p.2 ∧
      p.2 = rows.countP (fun r => r.release_year == some p.1) ∧
      (∀ a, s = some a → a ≤ p.1) ∧
      (∀ b, e = some b → p.1 ≤ b)) ∧
    (∀ y : Int, (∃ r ∈ rows, r.release_year = some y) → inB s e y = true →
      y ∈ (by_year rows s e).map Prod.fst) := by
  refine ⟨by_year_keys_sorted rows s e, ?_, ?_⟩
  · intro p hp
    unfold by_year at hp
    obtain ⟨y, hy, hpy⟩ := List.mem_map.mp hp
    have hyd : y ∈ dedupF (filtYears rows s e) :=
      ((List.mergeSort_perm _ _).mem_iff).mp hy
    have hyf : y ∈ filtYears rows s e := (mem_dedupF _ _).mp hyd
    have hb : inB s e y = true := by
      obtain ⟨r, _, _, hb⟩ := (mem_filtYears _ _ _ _).mp hyf
      exact hb
    have hp1 : p.1 = y := by rw [← hpy]
    have hp2 : p.2 = (filtYears rows s e).count y := by rw [← hpy]
    refine ⟨?_, ?_, ?_, ?_⟩
    · rw [hp2]
      exact List.count_pos_iff.mpr hyf
    · rw [hp2, hp1, count_filtYears rows s e y hb]
    · intro a ha
      rw [hp1]
      exact (inB_bounds s e y hb).1 a ha
    · intro b hbnd
      rw [hp1]
      exact (inB_bounds s e y hb).2 b hbnd
  · intro y hex hb
    obtain ⟨r, hr, hry⟩ := hex
    have hyf : y ∈ filtYears rows s e := (mem_filtYears _ _ _ _).mpr ⟨r, hr, hry, hb⟩
    have hyd : y ∈ dedupF (filtYears rows s e) := (mem_dedupF _ _).mpr hyf
    have hym : y ∈ (dedupF (filtYears rows s e)).mergeSort intLe :=
      ((List.mergeSort_perm _ _).mem_iff).mpr hyd
    unfold by_year
    exact List.mem_map.mpr ⟨(y, (filtYears rows s e).count y),
      List.mem_map.mpr ⟨y, hym, rfl⟩, rfl⟩

theorem C5_by_year_witness :
    2020 ∈ (by_year [recC] none none).map Prod.fst :=
  (C5_by_year [recC] none none).2.2 2020
    ⟨recC, List.mem_singleton.mpr rfl, rfl⟩ (by decide)

/-! ## Claim C2: counter lemmas -/

theorem bump_keys_of_mem (acc : List (String × Nat)) (k : String) :
    k ∈ acc.map Prod.fst → (bump acc k).map Prod.fst = acc.map Prod.fst := by
  induction acc with
  | nil => intro h; simp at h
  | cons p rest ih =>
    intro h
    obtain ⟨k', c⟩ := p
    by_cases hk : k' = k
    · simp only [bump, if_pos hk, List.map_cons]
    · simp only [bump, if_neg hk, List.map_cons]
      have h' : k = k' ∨ k ∈ rest.map Prod.fst := by
        rw [List.map_cons] at h
        exact List.mem_cons.mp h
      have hmem : k ∈ rest.map Prod.fst := by
        rcases h' with h1 | h1
        · exact absurd h1.symm hk
        · exact h1
      rw [ih hmem]

theorem bump_keys_of_not_mem (acc : List (String × Nat)) (k : String) :
    k ∉ acc.map Prod.fst → (bump acc k).map Prod.fst = acc.map Prod.fst ++ [k] := by
  induction acc with
  | nil => intro _; rfl
  | cons p rest ih =>
    intro h
    obtain ⟨k', c⟩ := p
    have hk : k' ≠ k := fun hkk => h (by simp [hkk])
    have hmem : k ∉ rest.map Prod.fst := fun hm => h (by simp [hm])
    simp only [bump, if_neg hk, List.map_cons, ih hmem]
    rfl

theorem bump_mem_char (k : String) (p : String × Nat) :
    ∀ acc : List (String × Nat), (acc.map Prod.fst).Nodup → p ∈ bump acc k →
      (p ∈ acc ∧ p.1 ≠ k) ∨ (∃ c, (k, c) ∈ acc ∧ p = (k, c + 1)) ∨
      (p = (k, 1) ∧ k ∉ acc.map Prod.fst) := by
  intro acc
  induction acc with
  | nil =>
    intro _ hp
    simp only [bump, List.mem_singleton] at hp
    exact Or.inr (Or.inr ⟨hp, by simp⟩)
  | cons q rest ih =>
    intro nd hp
    obtain ⟨k', c⟩ := q
    have nd2 : (k' :: rest.map Prod.fst).Nodup := by
      rw [List.map_cons] at nd
      exact nd
    have hnd := List.nodup_cons.mp nd2
    have hknr : k' ∉ rest.map Prod.fst := hnd.1
    have nd' : (rest.map Prod.fst).Nodup := hnd.2
    by_cases hk : k' = k
    · subst hk
      simp only [bump, if_pos rfl] at hp
      rcases List.mem_cons.mp hp with h1 | h1
      · exact Or.inr (Or.inl ⟨c, List.mem_cons_self _ _, h1⟩)
      · have hne : p.1 ≠ k' := fun hh => hknr (hh ▸ List.mem_map_of_mem Prod.fst h1)
        exact Or.inl ⟨List.mem_cons_of_mem _ h1, hne⟩
    · simp only [bump, if_neg hk] at hp
      rcases List.mem_cons.mp hp with h1 | h1
      · refine Or.inl ⟨by rw [h1]; exact List.mem_cons_self _ _, ?_⟩
        rw [h1]
        exact fun hh => hk hh
      · rcases ih nd' h1 with ⟨hmem, hne⟩ | ⟨c', hc, hpc⟩ | ⟨hpc, hnm⟩
        · exact Or.inl ⟨List.mem_cons_of_mem _ hmem, hne⟩
        · exact Or.inr (Or.inl ⟨c', List.mem_cons_of_mem _ hc, hpc⟩)
        · refine Or.inr (Or.inr ⟨hpc, fun hh => ?_⟩)
          have hh' : k = k' ∨ k ∈ rest.map Prod.fst := by
            rw [List.map_cons] at hh
            exact List.mem_cons.mp hh
          rcases hh' with h2 | h2
          · exact hk h2.symm
          · exact hnm h2

theorem indexOf_append_left (a : String) (l l' : List String) (h : a ∈ l) :
    (l ++ l').indexOf a = l.indexOf a := by
  induction l with
  | nil => simp at h
  | cons x t ih =>
    rw [List.cons_append, List.indexOf_cons, List.indexOf_cons]
    cases hxa : x == a with
    | true => simp
    | false =>
      have hat : a ∈ t := by
        rcases List.mem_cons.mp h with h1 | h1
        · subst h1; simp at hxa
        · exact h1
      simp [ih hat]

theorem indexOf_append_self (a : String) (l : List String) (h : a ∉ l) :
    (l ++ [a]).indexOf a = l.length := by
  induction l with
  | nil => simp [List.indexOf_cons]
  | cons x t ih =>
    have hxa : (x == a) = false := by
      have hne : x ≠ a := fun hh => h (by rw [hh]; exact List.mem_cons_self _ _)
      simpa using hne
    have hat : a ∉ t := fun hh => h (List.mem_cons_of_mem _ hh)
    rw [List.cons_append, List.indexOf_cons]
    simp [hxa, ih hat]

theorem countAll_append_one (keys : List String) (k : String) :
    countAll (keys ++ [k]) = bump (countAll keys) k := by
  unfold countAll
  rw [List.foldl_append]
  rfl

/-- The counter built by the counting loops: its keys are distinct, are
exactly the keys seen, appear in first-encountered order, and each carries
the number of occurrences of its key. -/
theorem countAll_spec (keys : List String) :
    ((countAll keys).map Prod.fst).Nodup ∧
    (∀ k, k ∈ (countAll keys).map Prod.fst ↔ k ∈ keys) ∧
    (∀ p ∈ countAll keys, p.2 = keys.count p.1) ∧
    ((countAll keys).map Prod.fst).Pairwise
      (fun k1 k2 => keys.indexOf k1 < keys.indexOf k2) := by
  induction keys using List.reverseRecOn with
  | nil =>
    exact ⟨List.nodup_nil, by simp [countAll], by simp [countAll], by
      simp [countAll]⟩
  | append_singleton keys k ih =>
    obtain ⟨nd, memiff, cnts, pw⟩ := ih
    rw [countAll_append_one]
    by_cases hk : k ∈ (countAll keys).map Prod.fst
    · have hkeys := bump_keys_of_mem (countAll keys) k hk
      refine ⟨?_, ?_, ?_, ?_⟩
      · rw [hkeys]; exact nd
      · intro k1
        rw [hkeys, List.mem_append, List.mem_singleton, memiff k1]
        constructor
        · exact fun h => Or.inl h
        · rintro (h | rfl)
          · exact h
          · exact (memiff k1).mp hk
      · intro p hp
        rcases bump_mem_char k p (countAll keys) nd hp with
          ⟨hmem, hne⟩ | ⟨c, hc, hpc⟩ | ⟨_, hnm⟩
        · have hkp : (k == p.1) = false := by
            have : k ≠ p.1 := fun hh => hne hh.symm
            simpa using this
          rw [List.count_append, List.count_singleton, hkp]
          simp [cnts p hmem]
        · have hc2 : c = keys.count k := cnts (k, c) hc
          rw [hpc]
          show c + 1 = (keys ++ [k]).count k
          rw [List.count_append, List.count_singleton]
          simp [hc2]
        · exact absurd hk hnm
      · rw [hkeys]
        refine List.Pairwise.imp_of_mem (fun ha hb hab => ?_) pw
        rw [indexOf_append_left _ keys [k] ((memiff _).mp ha),
          indexOf_append_left _ keys [k] ((memiff _).mp hb)]
        exact hab
    · have hknotin : k ∉ keys := fun hh => hk ((memiff k).mpr hh)
      have hkeys := bump_keys_of_not_mem (countAll keys) k hk
      refine ⟨?_, ?_, ?_, ?_⟩
      · rw [hkeys]
        exact List.Nodup.append nd (List.nodup_singleton k)
          (fun a ha hb => hk ((List.mem_singleton.mp hb) ▸ ha))
      · intro k1
        rw [hkeys, List.mem_append, List.mem_singleton, List.mem_append,
          List.mem_singleton, memiff k1]
      · intro p hp
        rcases bump_mem_char k p (countAll keys) nd hp with
          ⟨hmem, hne⟩ | ⟨c, hc, _⟩ | ⟨hpc, _⟩
        · have hkp : (k == p.1) = false := by
            have : k ≠ p.1 := fun hh => hne hh.symm
            simpa using this
          rw [List.count_append, List.count_singleton, hkp]
          simp [cnts p hmem]
        · exact absurd (List.mem_map_of_mem Prod.fst hc) hk
        · rw [hpc]
          show (1 : Nat) = (keys ++ [k]).count k
          rw [List.count_append, List.count_singleton,
            List.count_eq_zero.mpr hknotin]
          simp
      · rw [hkeys, List.pairwise_append]
        refine ⟨?_, List.pairwise_singleton _ _, ?_⟩
        · refine List.Pairwise.imp_of_mem (fun ha hb hab => ?_) pw
          rw [indexOf_append_left _ keys [k] ((memiff _).mp ha),
            indexOf_append_left _ keys [k] ((memiff _).mp hb)]
          exact hab
        · intro a ha b hb
          rw [List.mem_singleton.mp hb]
          have haK : a ∈ keys := (memiff a).mp ha
          rw [indexOf_append_left _ keys [k] haK, indexOf_append_self _ keys hknotin]
          exact List.indexOf_lt_length.mpr haK

theorem countGe_trans (a b c : String × Nat)
    (h1 : countGe a b = true) (h2 : countGe b c = true) : countGe a c = true := by
  simp only [countGe, decide_eq_true_eq] at *
  omega

theorem countGe_total (a b : String × Nat) : (countGe a b || countGe b a) = true := by
  simp only [countGe, Bool.or_eq_true, decide_eq_true_eq]
  omega

/-- Stability of the descending sort inside `most_common`: the entries with
any fixed count keep exactly the order they had in the counter. -/
theorem mergeSort_filter_count (cnt : List (String × Nat)) (c : Nat) :
    (cnt.mergeSort countGe).filter (fun p => p.2 == c) =
      cnt.filter (fun p => p.2 == c) := by
  have hpw : (cnt.filter (fun p => p.2 == c)).Pairwise
      (fun a b => countGe a b = true) := by
    refine List.pairwise_of_forall_mem_list ?_
    intro a ha b hb
    have ha2 : a.2 = c := by simpa using (List.mem_filter.mp ha).2
    have hb2 : b.2 = c := by simpa using (List.mem_filter.mp hb).2
    simp [countGe, ha2, hb2]
  have hsub : List.Sublist (cnt.filter (fun p => p.2 == c)) (cnt.mergeSort countGe) :=
    List.sublist_mergeSort countGe_trans countGe_total hpw (List.filter_sublist cnt)
  have hsub2 : List.Sublist (cnt.filter (fun p => p.2 == c))
      ((cnt.mergeSort countGe).filter (fun p => p.2 == c)) := by
    have h1 := List.Sublist.filter (fun p => p.2 == c) hsub
    rwa [List.filter_eq_self.mpr (fun a ha => (List.mem_filter.mp ha).2)] at h1
  have hlen : ((cnt.mergeSort countGe).filter (fun p => p.2 == c)).length =
      (cnt.filter (fun p => p.2 == c)).length :=
    ((List.mergeSort_perm cnt countGe).filter _).length_eq
  exact (List.Sublist.eq_of_length hsub2 hlen.symm).symm

/-- The properties of `most_common` over a counter built by `countAll`. -/
theorem most_common_spec (keys : List String) (top : Nat) :
    (most_common (countAll keys) top).length ≤ top ∧
    (most_common (countAll keys) top).Pairwise (fun a b => b.2 ≤ a.2) ∧
    (∀ p ∈ most_common (countAll keys) top, p.2 = keys.count p.1) ∧
    (∀ c : Nat, (((most_common (countAll keys) top).filter
        (fun p => p.2 == c)).map Prod.fst).Pairwise
          (fun k1 k2 => keys.indexOf k1 < keys.indexOf k2)) := by
  obtain ⟨nd, memiff, cnts, pw⟩ := countAll_spec keys
  refine ⟨?_, ?_, ?_, ?_⟩
  · unfold most_common
    rw [List.length_take]
    exact inf_le_left
  · unfold most_common
    have hs := @List.sorted_mergeSort (String × Nat) countGe countGe_trans
      countGe_total (countAll keys)
    have hs2 : ((countAll keys).mergeSort countGe).Pairwise (fun a b => b.2 ≤ a.2) :=
      hs.imp (fun h => by simpa [countGe] using h)
    exact List.Pairwise.sublist (List.take_sublist _ _) hs2
  · intro p hp
    have hp2 : p ∈ (countAll keys).mergeSort countGe := List.mem_of_mem_take hp
    have hp3 : p ∈ countAll keys := (List.mergeSort_perm _ _).mem_iff.mp hp2
    exact cnts p hp3
  · intro c
    have hsub : List.Sublist
        ((most_common (countAll keys) top).filter (fun p => p.2 == c))
        ((countAll keys).filter (fun p => p.2 == c)) := by
      rw [← mergeSort_filter_count (countAll keys) c]
      exact List.Sublist.filter _ (List.take_sublist _ _)
    have hsub2 : List.Sublist
        (((most_common (countAll keys) top).filter (fun p => p.2 == c)).map Prod.fst)
        ((countAll keys).map Prod.fst) :=
      List.Sublist.map Prod.fst (hsub.trans (List.filter_sublist _))
    exact List.Pairwise.sublist hsub2 pw

/-- Claim C2: for `top` within the declared bounds, `by_country` and
`by_genre` return at most `top` (key, count) pairs sorted descending by
count; each key's count is the number of (record, element) occurrences of
the key across all records' countries (resp. genres) lists; and entries
with equal counts appear in the first-encountered order of their keys
during counting (the position of a key's first occurrence in the flattened
element sequence). -/
theorem C2_grouped_counts (rows : List Record) (topC topG : Nat)
    (hc1 : 1 ≤ topC) (hc2 : topC ≤ 50) (hg1 : 1 ≤ topG) (hg2 : topG ≤ 100) :
    ((by_country rows topC).length ≤ topC ∧
      (by_country rows topC).Pairwise (fun a b => b.2 ≤ a.2) ∧
      (∀ p ∈ by_country rows topC,
        p.2 = (rows.flatMap (fun r => r.countries_list)).count p.1) ∧
      (∀ c : Nat, (((by_country rows topC).filter (fun p => p.2 == c)).map
          Prod.fst).Pairwise (fun k1 k2 =>
            (rows.flatMap (fun r => r.countries_list)).indexOf k1 <
              (rows.flatMap (fun r => r.countries_list)).indexOf k2))) ∧
    ((by_genre rows topG).length ≤ topG ∧
      (by_genre rows topG).Pairwise (fun a b => b.2 ≤ a.2) ∧
      (∀ p ∈ by_genre rows topG,
        p.2 = (rows.flatMap (fun r => r.genres_list)).count p.1) ∧
      (∀ c : Nat, (((by_genre rows topG).filter (fun p => p.2 == c)).map
          Prod.fst).Pairwise (fun k1 k2 =>
            (rows.flatMap (fun r => r.genres_list)).indexOf k1 <
              (rows.flatMap (fun r => r.genres_list)).indexOf k2))) :=
  ⟨most_common_spec (rows.flatMap (fun r => r.countries_list)) topC,
   most_common_spec (rows.flatMap (fun r => r.genres_list)) topG⟩

theorem C2_grouped_counts_witness :
    1 ≤ 10 ∧ 10 ≤ 50 ∧ 1 ≤ 15 ∧ 15 ≤ 100 ∧ (by_country [recC] 10).length ≤ 10 :=
  ⟨by decide, by decide, by decide, by decide,
    (C2_grouped_counts [recC] 10 15 (by decide) (by decide) (by decide)
      (by decide)).1.1⟩
